import Mathlib

/-!
Verification development for the `collectfiles` crate (single source file
`src/lib.rs`): a depth-bounded recursive filesystem traversal with optional
pattern filtering, an optional path transform ("hook"), and optional
single-shot directory-read error recovery.

The embedding is shallow: Rust `PathBuf` values become `RPath` (either a
valid-unicode string or an opaque non-unicode value), the host filesystem
becomes an oracle `FS` supplying `read_dir` and `is_dir`, the external
regular-expression engine becomes an abstract compiled matcher `Regex`,
and panics become an explicit `Abort` error value.  The parallel fan-out
over directory entries (rayon `par_bridge`) is modelled by a schedule
parameter that may permute each directory's entry list.  Recursion is made
structural with a fuel parameter; fuel exhaustion is the `none` outcome,
and every theorem about results is stated for runs that returned `some`.
-/

/-- The model of Rust `PathBuf`: a path is either representable as valid
unicode text (`PathBuf::to_str` returns `Some`) or it is not, in which case
it is an opaque value distinguished by a tag (`to_str` returns `None`). -/
inductive RPath where
  | valid (s : String)
  | invalid (tag : Nat)
deriving DecidableEq, Repr

/-- Model of `PathBuf::to_str`: the unicode text of the path, when it has one. -/
def RPath.toStr : RPath → Option String
  | .valid s => some s
  | .invalid _ => none

/-- Model of `PathBuf::default()`: the empty path, used by the source as the
sentinel marking excluded entries. -/
def RPath.defaultPath : RPath := .valid ""

/-- Model of `p.as_os_str() == ""`: only the empty unicode path has an empty
OS-string form (a non-unicode OS string is necessarily non-empty, since the
empty byte sequence is valid unicode). -/
def RPath.osEmpty : RPath → Bool
  | .valid s => s == ""
  | .invalid _ => false

/-- Model of `std::io::Error`: an opaque error value distinguished by a code
(the source only ever passes it whole to the recovery function). -/
structure IOError where
  code : Nat
deriving DecidableEq, Repr

/-- Modelled from the spec: the external pattern-matching engine collaborator
("a pattern-matching engine supporting an is-match(text) → boolean capability
compiled once from a pattern string").  A compiled matcher holds its source
string (for the `as_target_regex` accessor) and its matching function. -/
structure Regex where
  src : String
  is_match : String → Bool

/-- The filesystem oracle: `read_dir` yields, per directory path, either an
I/O error or the list of entries, each entry itself either an I/O error or
the entry's full path (`DirEntry::path()`); `is_dir` is the stat primitive
`Path::is_dir`. -/
structure FS where
  read_dir : RPath → Except IOError (List (Except IOError RPath))
  is_dir : RPath → Bool

/-- The ways the source aborts (Rust panics) during a traversal. -/
inductive Abort where
  | readDirErr (e : IOError)
  | entryErr (e : IOError)
  | notUnicode (p : RPath)
deriving DecidableEq, Repr

/-- A schedule models the unordered parallel fan-out of rayon `par_bridge`:
for each directory read it may reorder the entry list before processing.
Theorems about run-to-run nondeterminism quantify over schedules that
permute. -/
def Sched : Type := RPath → List (Except IOError RPath) → List (Except IOError RPath)

/-- The identity schedule: entries processed in listing order. -/
def idSched : Sched := fun _ l => l

/-- Lines 203–209 of `src/lib.rs`: the directory read with optional
single-shot recovery.  Without `unwrap_or_else` a read error is a fatal
abort (`unwrap`); with it, the recovery function is applied to the error to
obtain a substitute path which is read once, a second failure being a fatal
abort (`unwrap`). -/
def readDirStep (fs : FS) (unwrap_or_else : Option (IOError → RPath))
    (dir_path : RPath) : Except Abort (List (Except IOError RPath)) :=
  match unwrap_or_else with
  | some f =>
    match fs.read_dir dir_path with
    | .ok ps => .ok ps
    | .error e =>
      match fs.read_dir (f e) with
      | .ok ps => .ok ps
      | .error e2 => .error (.readDirErr e2)
  | none =>
    match fs.read_dir dir_path with
    | .ok ps => .ok ps
    | .error e => .error (.readDirErr e)

/-- Lines 213–220 of `src/lib.rs`: per-entry path resolution.  With
`unwrap_or_else` an erroneous entry is replaced by the recovery function's
output path; without it, an erroneous entry is a fatal abort (`unwrap`). -/
def resolveEntryPath (unwrap_or_else : Option (IOError → RPath))
    (p : Except IOError RPath) : Except Abort RPath :=
  match unwrap_or_else with
  | some f =>
    match p with
    | .ok v => .ok v
    | .error e => .ok (f e)
  | none =>
    match p with
    | .ok v => .ok v
    | .error e => .error (.entryErr e)

/-- Lines 236–251 of `src/lib.rs`: the file branch.  With a pattern, the
path's text (fatal abort when not unicode) is matched; a match emits the
hooked path when a hook is set, else the path itself; a non-match emits the
sentinel `PathBuf::default()`.  With no pattern the path is emitted
unchanged (the hook is not consulted). -/
def fileEmit (hook_fn : Option (RPath → RPath)) (target_regex : Option Regex)
    (path : RPath) : Except Abort (List RPath) :=
  match target_regex with
  | some r =>
    match path.toStr with
    | none => .error (.notUnicode path)
    | some s =>
      if r.is_match s then
        match hook_fn with
        | some hook => .ok [hook path]
        | none => .ok [path]
      else .ok [RPath.defaultPath]
  | none => .ok [path]

/-- Sequencing of the per-entry outputs of one directory: the flat_map body
outputs are concatenated; an abort in any entry aborts the whole call, and
exhausted fuel (`none`) propagates. -/
def seqEntries : List (Option (Except Abort (List RPath))) →
    Option (Except Abort (List RPath))
  | [] => some (.ok [])
  | r :: rs =>
    match r with
    | none => none
    | some (.error a) => some (.error a)
    | some (.ok l) =>
      match seqEntries rs with
      | none => none
      | some (.error a) => some (.error a)
      | some (.ok ls) => some (.ok (l ++ ls))

/-- Line 253 of `src/lib.rs`: the final `.filter(|p| p.as_os_str() != "")`
applied to the flattened outputs of one `collect_files` call. -/
def finishDir : Option (Except Abort (List RPath)) →
    Option (Except Abort (List RPath))
  | none => none
  | some (.error a) => some (.error a)
  | some (.ok l) => some (.ok (l.filter fun q => !q.osEmpty))

/-- The body of the flat_map closure, lines 212–251 of `src/lib.rs`,
abstracted over the recursive call: resolve the entry's path; a directory
either recurses with the depth budget decremented (`Some(dep) if dep > 0`),
emits the sentinel when the budget is zero (`Some(_)`), or recurses
unbounded (`None`); a non-directory goes through the file branch. -/
def collectEntryWith (fs : FS)
    (recur : RPath → Option Nat → Option (RPath → RPath) → Option Regex →
      Option (IOError → RPath) → Option (Except Abort (List RPath)))
    (depth : Option Nat) (hook_fn : Option (RPath → RPath))
    (target_regex : Option Regex) (unwrap_or_else : Option (IOError → RPath))
    (p : Except IOError RPath) : Option (Except Abort (List RPath)) :=
  match resolveEntryPath unwrap_or_else p with
  | .error a => some (.error a)
  | .ok path =>
    if fs.is_dir path then
      match depth with
      | some dep =>
        if dep > 0 then
          recur path (some (dep - 1)) hook_fn target_regex unwrap_or_else
        else some (.ok [RPath.defaultPath])
      | none => recur path none hook_fn target_regex unwrap_or_else
    else
      match fileEmit hook_fn target_regex path with
      | .error a => some (.error a)
      | .ok l => some (.ok l)

/-- Lines 196–255 of `src/lib.rs`: `collect_files`.  Read the directory
(with single-shot recovery), process every entry of the (scheduled) listing,
flatten the outputs and drop the sentinel empty paths.  `fuel` makes the
recursion structural; a run that exhausts fuel returns `none`. -/
def collect_files (fs : FS) (sched : Sched) :
    Nat → RPath → Option Nat → Option (RPath → RPath) → Option Regex →
      Option (IOError → RPath) → Option (Except Abort (List RPath))
  | 0 => fun _ _ _ _ _ => none
  | fuel + 1 => fun dir_path depth hook_fn target_regex unwrap_or_else =>
    match readDirStep fs unwrap_or_else dir_path with
    | .error a => some (.error a)
    | .ok paths =>
      finishDir (seqEntries ((sched dir_path paths).map
        (collectEntryWith fs (collect_files fs sched fuel)
          depth hook_fn target_regex unwrap_or_else)))

/-- Lines 47–61 of `src/lib.rs`: the configuration record.  `root_dir` is
set at construction; every other field starts `none` (Rust
`Default::default()`). -/
structure CollectFilesConfigured where
  root_dir : RPath
  depth : Option Nat := none
  hook_fn : Option (RPath → RPath) := none
  target_regex : Option Regex := none
  unwrap_or_else : Option (IOError → RPath) := none

/-- Lines 55–60: `CollectFilesConfigured::new`. -/
def CollectFilesConfigured.new (root_dir : RPath) : CollectFilesConfigured :=
  { root_dir := root_dir }

/-- Lines 85–88: `with_hook` sets the hook and returns the configuration. -/
def CollectFilesConfigured.with_hook (c : CollectFilesConfigured)
    (hook_fn : RPath → RPath) : CollectFilesConfigured :=
  { c with hook_fn := some hook_fn }

/-- Lines 90–93: `with_depth` sets the depth budget. -/
def CollectFilesConfigured.with_depth (c : CollectFilesConfigured)
    (level : Nat) : CollectFilesConfigured :=
  { c with depth := some level }

/-- Lines 95–100: `with_target_regex` compiles the pattern through the
external engine; a compilation failure is the configuration-time panic,
modelled as `none`. -/
def CollectFilesConfigured.with_target_regex (compile : String → Option Regex)
    (c : CollectFilesConfigured) (regex : String) :
    Option CollectFilesConfigured :=
  match compile regex with
  | some r => some { c with target_regex := some r }
  | none => none

/-- Lines 102–105: `with_unwrap_or_else` sets the recovery function. -/
def CollectFilesConfigured.with_unwrap_or_else (c : CollectFilesConfigured)
    (f : IOError → RPath) : CollectFilesConfigured :=
  { c with unwrap_or_else := some f }

/-- Lines 65–71: the `as_target_regex` accessor (pattern source string). -/
def CollectFilesConfigured.as_target_regex (c : CollectFilesConfigured) :
    Option String :=
  match c.target_regex with
  | some r => some r.src
  | none => none

/-- Lines 72–83: the remaining read-only accessors. -/
def CollectFilesConfigured.as_root_dir (c : CollectFilesConfigured) : RPath :=
  c.root_dir

def CollectFilesConfigured.as_hook (c : CollectFilesConfigured) :
    Option (RPath → RPath) :=
  c.hook_fn

def CollectFilesConfigured.as_depth (c : CollectFilesConfigured) :
    Option Nat :=
  c.depth

/-- Lines 107–115: `collect` runs the traversal with the configured
settings (the filesystem, schedule and fuel are ambient model parameters). -/
def CollectFilesConfigured.collect (fs : FS) (sched : Sched) (fuel : Nat)
    (c : CollectFilesConfigured) : Option (Except Abort (List RPath)) :=
  collect_files fs sched fuel c.root_dir c.depth c.hook_fn c.target_regex
    c.unwrap_or_else

/-! Basic instances and inversion lemmas for the traversal combinators. -/

instance {e a : Type} [DecidableEq e] [DecidableEq a] : DecidableEq (Except e a)
  | .ok x, .ok y =>
    if h : x = y then .isTrue (by rw [h]) else
      .isFalse (fun hc => by cases hc; exact h rfl)
  | .error x, .error y =>
    if h : x = y then .isTrue (by rw [h]) else
      .isFalse (fun hc => by cases hc; exact h rfl)
  | .ok _, .error _ => .isFalse (fun hc => by cases hc)
  | .error _, .ok _ => .isFalse (fun hc => by cases hc)

/-- The path list of a successful per-entry outcome, and `[]` otherwise. -/
def extractOk : Option (Except Abort (List RPath)) → List RPath
  | some (.ok l) => l
  | _ => []

/-- Out of fuel: the run is `none`. -/
theorem collect_files_zero (fs : FS) (sched : Sched) (root : RPath)
    (d : Option Nat) (h : Option (RPath → RPath)) (rx : Option Regex)
    (u : Option (IOError → RPath)) :
    collect_files fs sched 0 root d h rx u = none := rfl

/-- One unfolding of `collect_files` at positive fuel. -/
theorem collect_files_succ (fs : FS) (sched : Sched) (fuel : Nat) (root : RPath)
    (d : Option Nat) (h : Option (RPath → RPath)) (rx : Option Regex)
    (u : Option (IOError → RPath)) :
    collect_files fs sched (fuel + 1) root d h rx u =
      match readDirStep fs u root with
      | .error a => some (.error a)
      | .ok paths =>
        finishDir (seqEntries ((sched root paths).map
          (collectEntryWith fs (collect_files fs sched fuel) d h rx u))) := rfl

/-- A successful `seqEntries` run means every entry succeeded, and the output
is the concatenation of the per-entry outputs. -/
theorem seqEntries_ok (rs : List (Option (Except Abort (List RPath))))
    (L : List RPath) (hs : seqEntries rs = some (.ok L)) :
    (∀ res ∈ rs, ∃ l, res = some (.ok l)) ∧ L = rs.flatMap extractOk := by
  induction rs generalizing L with
  | nil =>
    simp only [seqEntries] at hs
    cases hs
    simp
  | cons r rs ih =>
    simp only [seqEntries] at hs
    match hr : r with
    | none => simp at hs
    | some (.error a) => simp at hs
    | some (.ok l) =>
      simp only [] at hs
      match hrest : seqEntries rs with
      | none => rw [hrest] at hs; simp at hs
      | some (.error a) => rw [hrest] at hs; simp at hs
      | some (.ok ls) =>
        rw [hrest] at hs
        simp only [Option.some.injEq, Except.ok.injEq] at hs
        obtain ⟨hall, hcat⟩ := ih ls hrest
        refine ⟨?_, ?_⟩
        · intro res hres
          rcases hres with _ | hres
          · exact ⟨l, rfl⟩
          · exact hall res (by assumption)
        · simp [List.flatMap_cons, extractOk, ← hs, hcat]

/-- A `seqEntries` abort traces to an aborting entry. -/
theorem seqEntries_error (rs : List (Option (Except Abort (List RPath))))
    (a : Abort) (hs : seqEntries rs = some (.error a)) :
    ∃ res ∈ rs, res = some (.error a) := by
  induction rs with
  | nil => simp only [seqEntries] at hs; cases hs
  | cons r rs ih =>
    simp only [seqEntries] at hs
    match hr : r with
    | none => simp at hs
    | some (.error b) =>
      simp only [Option.some.injEq, Except.error.injEq] at hs
      subst hs
      exact ⟨some (.error b), by simp⟩
    | some (.ok l) =>
      simp only [] at hs
      match hrest : seqEntries rs with
      | none => rw [hrest] at hs; simp at hs
      | some (.error b) =>
        rw [hrest] at hs
        simp only [Option.some.injEq, Except.error.injEq] at hs
        subst hs
        obtain ⟨res, hmem, hres⟩ := ih hrest
        exact ⟨res, by simp [hmem], hres⟩
      | some (.ok ls) => rw [hrest] at hs; simp at hs

/-- Inversion of the final filter step on a successful run. -/
theorem finishDir_ok (o : Option (Except Abort (List RPath))) (r : List RPath)
    (hs : finishDir o = some (.ok r)) :
    ∃ L, o = some (.ok L) ∧ r = L.filter fun q => !q.osEmpty := by
  match ho : o with
  | none => simp [finishDir] at hs
  | some (.error a) => simp [finishDir] at hs
  | some (.ok L) =>
    simp only [finishDir, Option.some.injEq, Except.ok.injEq] at hs
    exact ⟨L, rfl, hs.symm⟩

/-- Inversion of the final filter step on an aborting run. -/
theorem finishDir_error (o : Option (Except Abort (List RPath))) (a : Abort)
    (hs : finishDir o = some (.error a)) : o = some (.error a) := by
  match ho : o with
  | none => simp [finishDir] at hs
  | some (.error b) =>
    simp only [finishDir, Option.some.injEq, Except.error.injEq] at hs
    rw [hs]
  | some (.ok L) => simp [finishDir] at hs

/-- Provenance of results: every path in a successful traversal survives the
empty-path filter and was emitted by the file branch (`fileEmit`) applied to
a resolved path that the filesystem does not consider a directory. -/
theorem mem_collect_provenance (fs : FS) (sched : Sched) :
    ∀ fuel root d h rx u r,
      collect_files fs sched fuel root d h rx u = some (.ok r) →
      ∀ q ∈ r, q.osEmpty = false ∧
        ∃ p l, fs.is_dir p = false ∧ fileEmit h rx p = .ok l ∧ q ∈ l := by
  intro fuel
  induction fuel with
  | zero =>
    intro root d h rx u r hrun
    rw [collect_files_zero] at hrun
    cases hrun
  | succ fuel ih =>
    intro root d h rx u r hrun q hq
    rw [collect_files_succ] at hrun
    match hread : readDirStep fs u root with
    | .error a => rw [hread] at hrun; simp at hrun
    | .ok paths =>
      rw [hread] at hrun
      simp only [] at hrun
      obtain ⟨L, hseq, hfilt⟩ := finishDir_ok _ _ hrun
      obtain ⟨hall, hcat⟩ := seqEntries_ok _ _ hseq
      subst hfilt
      rw [List.mem_filter] at hq
      obtain ⟨hqL, hqne⟩ := hq
      have hqos : q.osEmpty = false := by simpa using hqne
      refine ⟨hqos, ?_⟩
      subst hcat
      rw [List.mem_flatMap] at hqL
      obtain ⟨res, hres, hqres⟩ := hqL
      rw [List.mem_map] at hres
      obtain ⟨e, he, hfe⟩ := hres
      subst hfe
      simp only [collectEntryWith] at hqres
      match hresolve : resolveEntryPath u e with
      | .error a => rw [hresolve] at hqres; simp [extractOk] at hqres
      | .ok path =>
        rw [hresolve] at hqres
        simp only [] at hqres
        cases hdir : fs.is_dir path with
        | true =>
          rw [hdir] at hqres
          simp only [if_true] at hqres
          match d with
          | some dep =>
            by_cases hdep : dep > 0
            · simp only [hdep, if_true] at hqres
              match hrec : collect_files fs sched fuel path (some (dep - 1)) h rx u with
              | none => rw [hrec] at hqres; simp [extractOk] at hqres
              | some (.error a) => rw [hrec] at hqres; simp [extractOk] at hqres
              | some (.ok l') =>
                rw [hrec] at hqres
                simp only [extractOk] at hqres
                exact (ih path (some (dep - 1)) h rx u l' hrec q hqres).2
            · simp only [hdep, if_false] at hqres
              simp only [extractOk, List.mem_singleton] at hqres
              subst hqres
              simp [RPath.osEmpty, RPath.defaultPath] at hqos
          | none =>
            match hrec : collect_files fs sched fuel path none h rx u with
            | none => rw [hrec] at hqres; simp [extractOk] at hqres
            | some (.error a) => rw [hrec] at hqres; simp [extractOk] at hqres
            | some (.ok l') =>
              rw [hrec] at hqres
              simp only [extractOk] at hqres
              exact (ih path none h rx u l' hrec q hqres).2
        | false =>
          rw [hdir] at hqres
          simp only [Bool.false_eq_true, if_false] at hqres
          match hemit : fileEmit h rx path with
          | .error a => rw [hemit] at hqres; simp [extractOk] at hqres
          | .ok l =>
            rw [hemit] at hqres
            simp only [extractOk] at hqres
            exact ⟨path, l, hdir, hemit, hqres⟩

/-- With no pattern configured the file branch never consults the hook, so
the whole traversal is independent of the hook setting. -/
theorem collect_hook_irrelevant_of_no_regex (fs : FS) (sched : Sched) :
    ∀ fuel root d hk u,
      collect_files fs sched fuel root d hk none u =
        collect_files fs sched fuel root d none none u := by
  intro fuel
  induction fuel with
  | zero => intro root d hk u; rfl
  | succ fuel ih =>
    intro root d hk u
    rw [collect_files_succ, collect_files_succ]
    match readDirStep fs u root with
    | .error a => rfl
    | .ok paths =>
      simp only []
      have hfun : collectEntryWith fs (collect_files fs sched fuel) d hk none u =
          collectEntryWith fs (collect_files fs sched fuel) d none none u := by
        funext e
        simp only [collectEntryWith]
        match resolveEntryPath u e with
        | .error a => rfl
        | .ok path =>
          simp only []
          cases fs.is_dir path with
          | true =>
            simp only [if_true]
            match d with
            | some dep =>
              by_cases hdep : dep > 0
              · simp only [hdep, if_true]
                exact ih path (some (dep - 1)) hk u
              · simp only [hdep, if_false]
            | none => exact ih path none hk u
          | false => rfl
      rw [hfun]

/-- When two matchers agree on every string that denotes a non-directory
path, the traversal cannot tell them apart: the pattern is only ever tested
against file paths. -/
theorem collect_regex_agree (fs : FS) (sched : Sched) (rx rx' : Regex)
    (hagree : ∀ s, fs.is_dir (RPath.valid s) = false →
      rx.is_match s = rx'.is_match s) :
    ∀ fuel root d h u,
      collect_files fs sched fuel root d h (some rx) u =
        collect_files fs sched fuel root d h (some rx') u := by
  intro fuel
  induction fuel with
  | zero => intro root d h u; rfl
  | succ fuel ih =>
    intro root d h u
    rw [collect_files_succ, collect_files_succ]
    match readDirStep fs u root with
    | .error a => rfl
    | .ok paths =>
      simp only []
      have hfun : collectEntryWith fs (collect_files fs sched fuel) d h (some rx) u =
          collectEntryWith fs (collect_files fs sched fuel) d h (some rx') u := by
        funext e
        simp only [collectEntryWith]
        match resolveEntryPath u e with
        | .error a => rfl
        | .ok path =>
          simp only []
          cases hdir : fs.is_dir path with
          | true =>
            simp only [if_true]
            match d with
            | some dep =>
              by_cases hdep : dep > 0
              · simp only [hdep, if_true]
                exact ih path (some (dep - 1)) h u
              · simp only [hdep, if_false]
            | none => exact ih path none h u
          | false =>
            cases path with
            | invalid t => rfl
            | valid s =>
              simp only [Bool.false_eq_true, if_false, fileEmit, RPath.toStr]
              rw [hagree s hdir]
      rw [hfun]

/-- A `readDirStep` abort is always a directory-read abort. -/
theorem readDirStep_error (fs : FS) (u : Option (IOError → RPath))
    (root : RPath) (a : Abort) (ha : readDirStep fs u root = .error a) :
    ∃ e, a = .readDirErr e := by
  match u with
  | some f =>
    simp only [readDirStep] at ha
    match hrd : fs.read_dir root with
    | .ok ps => rw [hrd] at ha; simp at ha
    | .error e =>
      rw [hrd] at ha
      simp only [] at ha
      match hrd2 : fs.read_dir (f e) with
      | .ok ps => rw [hrd2] at ha; simp at ha
      | .error e2 =>
        rw [hrd2] at ha
        simp only [Except.error.injEq] at ha
        exact ⟨e2, ha.symm⟩
  | none =>
    simp only [readDirStep] at ha
    match hrd : fs.read_dir root with
    | .ok ps => rw [hrd] at ha; simp at ha
    | .error e =>
      rw [hrd] at ha
      simp only [Except.error.injEq] at ha
      exact ⟨e, ha.symm⟩

/-- A `resolveEntryPath` abort is always a per-entry read abort. -/
theorem resolveEntryPath_error (u : Option (IOError → RPath))
    (p : Except IOError RPath) (a : Abort)
    (ha : resolveEntryPath u p = .error a) : ∃ e, a = .entryErr e := by
  match u, p with
  | some f, .ok v => simp [resolveEntryPath] at ha
  | some f, .error e => simp [resolveEntryPath] at ha
  | none, .ok v => simp [resolveEntryPath] at ha
  | none, .error e =>
    simp only [resolveEntryPath, Except.error.injEq] at ha
    exact ⟨e, ha.symm⟩

/-- With no pattern configured, the not-valid-unicode abort is unreachable:
no path text is ever demanded. -/
theorem collect_no_notUnicode_of_no_regex (fs : FS) (sched : Sched) :
    ∀ fuel root d hk u pth,
      collect_files fs sched fuel root d hk none u ≠
        some (.error (.notUnicode pth)) := by
  intro fuel
  induction fuel with
  | zero =>
    intro root d hk u pth
    rw [collect_files_zero]
    simp
  | succ fuel ih =>
    intro root d hk u pth hcontra
    rw [collect_files_succ] at hcontra
    match hread : readDirStep fs u root with
    | .error a =>
      rw [hread] at hcontra
      obtain ⟨e, he⟩ := readDirStep_error fs u root a hread
      subst he
      simp at hcontra
    | .ok paths =>
      rw [hread] at hcontra
      simp only [] at hcontra
      have hseq := finishDir_error _ _ hcontra
      obtain ⟨res, hmem, hres⟩ := seqEntries_error _ _ hseq
      rw [List.mem_map] at hmem
      obtain ⟨e, he, hfe⟩ := hmem
      subst hfe
      simp only [collectEntryWith] at hres
      match hresolve : resolveEntryPath u e with
      | .error a =>
        rw [hresolve] at hres
        simp only [Option.some.injEq, Except.error.injEq] at hres
        obtain ⟨er, her⟩ := resolveEntryPath_error u e a hresolve
        rw [her] at hres
        simp at hres
      | .ok path =>
        rw [hresolve] at hres
        simp only [] at hres
        cases hdir : fs.is_dir path with
        | true =>
          rw [hdir] at hres
          simp only [if_true] at hres
          match d with
          | some dep =>
            by_cases hdep : dep > 0
            · simp only [hdep, if_true] at hres
              exact ih path (some (dep - 1)) hk u pth hres
            · simp only [hdep, if_false] at hres
              simp at hres
          | none => exact ih path none hk u pth hres
        | false =>
          rw [hdir] at hres
          simp only [Bool.false_eq_true, if_false, fileEmit] at hres
          simp at hres

/-- Determinism up to entry order: two successful runs with the same
configuration over the same filesystem, under any two permuting schedules,
produce the same multiset of paths. -/
theorem collect_perm (fs : FS) (sched sched' : Sched)
    (hperm1 : ∀ p l, List.Perm (sched p l) l)
    (hperm2 : ∀ p l, List.Perm (sched' p l) l) :
    ∀ fuel root d h rx u r r',
      collect_files fs sched fuel root d h rx u = some (.ok r) →
      collect_files fs sched' fuel root d h rx u = some (.ok r') →
      List.Perm r r' := by
  intro fuel
  induction fuel with
  | zero =>
    intro root d h rx u r r' h1 h2
    rw [collect_files_zero] at h1
    cases h1
  | succ fuel ih =>
    intro root d h rx u r r' h1 h2
    rw [collect_files_succ] at h1 h2
    match hread : readDirStep fs u root with
    | .error a => rw [hread] at h1; simp at h1
    | .ok paths =>
      rw [hread] at h1 h2
      simp only [] at h1 h2
      obtain ⟨L1, hseq1, hf1⟩ := finishDir_ok _ _ h1
      obtain ⟨L2, hseq2, hf2⟩ := finishDir_ok _ _ h2
      obtain ⟨hall1, hcat1⟩ := seqEntries_ok _ _ hseq1
      obtain ⟨hall2, hcat2⟩ := seqEntries_ok _ _ hseq2
      subst hf1
      subst hf2
      apply List.Perm.filter
      subst hcat1
      subst hcat2
      rw [List.flatMap_map, List.flatMap_map]
      have hll : List.Perm (sched root paths) (sched' root paths) :=
        (hperm1 root paths).trans (hperm2 root paths).symm
      refine List.Perm.trans (List.Perm.flatMap_left (sched root paths) ?_)
        (List.Perm.flatMap_right _ hll)
      intro e he
      have he2 : e ∈ sched' root paths := hll.mem_iff.mp he
      obtain ⟨l1, hl1⟩ := hall1 _ (List.mem_map_of_mem
        (collectEntryWith fs (collect_files fs sched fuel) d h rx u) he)
      obtain ⟨l2, hl2⟩ := hall2 _ (List.mem_map_of_mem
        (collectEntryWith fs (collect_files fs sched' fuel) d h rx u) he2)
      simp only [hl1, hl2, extractOk]
      simp only [collectEntryWith] at hl1 hl2
      match hresolve : resolveEntryPath u e with
      | .error a =>
        rw [hresolve] at hl1
        simp at hl1
      | .ok path =>
        rw [hresolve] at hl1 hl2
        simp only [] at hl1 hl2
        cases hdir : fs.is_dir path with
        | true =>
          rw [hdir] at hl1 hl2
          simp only [if_true] at hl1 hl2
          match d with
          | some dep =>
            by_cases hdep : dep > 0
            · simp only [hdep, if_true] at hl1 hl2
              exact ih path (some (dep - 1)) h rx u l1 l2 hl1 hl2
            · simp only [hdep, if_false] at hl1 hl2
              simp only [Option.some.injEq, Except.ok.injEq] at hl1 hl2
              rw [← hl1, ← hl2]
          | none => exact ih path none h rx u l1 l2 hl1 hl2
        | false =>
          rw [hdir] at hl1 hl2
          simp only [Bool.false_eq_true, if_false] at hl1 hl2
          match hemit : fileEmit h rx path with
          | .error a => rw [hemit] at hl1; simp at hl1
          | .ok l =>
            rw [hemit] at hl1 hl2
            simp only [Option.some.injEq, Except.ok.injEq] at hl1 hl2
            rw [← hl1, ← hl2]

/-- Resolution of a successfully-read entry never consults the recovery
function. -/
theorem resolveEntryPath_ok_entry (u : Option (IOError → RPath)) (v : RPath) :
    resolveEntryPath u (.ok v) = .ok v := by
  cases u <;> rfl

/-! Concrete fixtures used by counterexamples and witnesses. -/

/-- A concrete matcher standing for the compiled pattern `.md$`: it accepts
exactly the strings ending in `.md` (the behaviour of `.md$` on every path
appearing in the fixtures below). -/
def mdRegex : Regex :=
  { src := ".md$", is_match := fun s => List.isSuffixOf ".md".data s.data }

/-- A matcher that agrees with `mdRegex` on every string except the
directory path `/r/sub`. -/
def mdOrSubRegex : Regex :=
  { src := ".md$",
    is_match := fun s =>
      if s = "/r/sub" then true else List.isSuffixOf ".md".data s.data }

/-- The depth-1 scenario tree of §8: root `/r` holds file `/r/x.md` and
subdirectory `/r/sub` holding file `/r/sub/y.md`. -/
def fsDepth : FS where
  read_dir p :=
    if p = .valid "/r" then .ok [.ok (.valid "/r/x.md"), .ok (.valid "/r/sub")]
    else if p = .valid "/r/sub" then .ok [.ok (.valid "/r/sub/y.md")]
    else .error { code := 2 }
  is_dir p := p = .valid "/r" || p = .valid "/r/sub"

/-- A one-file tree: root `/r` holds the single file `/r/a`. -/
def fsHook : FS where
  read_dir p :=
    if p = .valid "/r" then .ok [.ok (.valid "/r/a")] else .error { code := 2 }
  is_dir p := p = .valid "/r"

/-- A constant hook, chosen so its output never coincides with a fixture
path. -/
def hookX : RPath → RPath := fun _ => .valid "/r/HOOKED"

/-- The reversing schedule: entries processed in reverse listing order. -/
def revSched : Sched := fun _ l => l.reverse

/-- Claim C1, counterexample: with a hook configured and no pattern, the one
file of `fsHook` is emitted unchanged, not as the hook's output (the hook
never produces `/r/a`). -/
theorem c1_counterexample :
    collect_files fsHook idSched 2 (RPath.valid "/r") none (some hookX)
        none none = some (.ok [RPath.valid "/r/a"]) ∧
      hookX (RPath.valid "/r/a") ≠ RPath.valid "/r/a" :=
  ⟨rfl, by decide⟩

/-- Claim C1, amended: the hook is applied to every surviving path only when
a pattern is configured; with no pattern configured the hook is ignored and
the traversal result is the same as with no hook at all. -/
theorem c1_hook_applied_iff_pattern (fs : FS) (sched : Sched) (fuel : Nat)
    (root : RPath) (d : Option Nat) (hk : Option (RPath → RPath))
    (u : Option (IOError → RPath)) :
    (collect_files fs sched fuel root d hk none u =
      collect_files fs sched fuel root d none none u) ∧
    (∀ rgx hook r,
      collect_files fs sched fuel root d (some hook) (some rgx) u =
        some (.ok r) →
      ∀ q ∈ r, ∃ p s, p.toStr = some s ∧ rgx.is_match s = true ∧
        q = hook p) := by
  constructor
  · exact collect_hook_irrelevant_of_no_regex fs sched fuel root d hk u
  · intro rgx hook r hrun q hq
    obtain ⟨hos, p, l, hdir, hemit, hql⟩ :=
      mem_collect_provenance fs sched fuel root d (some hook) (some rgx) u r
        hrun q hq
    cases p with
    | invalid t => simp [fileEmit, RPath.toStr] at hemit
    | valid s =>
      simp only [fileEmit, RPath.toStr] at hemit
      by_cases hmatch : rgx.is_match s = true
      · rw [if_pos hmatch] at hemit
        simp only [Except.ok.injEq] at hemit
        rw [← hemit] at hql
        simp only [List.mem_singleton] at hql
        exact ⟨RPath.valid s, s, rfl, hmatch, hql⟩
      · rw [if_neg hmatch] at hemit
        simp only [Except.ok.injEq] at hemit
        rw [← hemit] at hql
        simp only [List.mem_singleton] at hql
        rw [hql] at hos
        simp [RPath.defaultPath, RPath.osEmpty] at hos

/-- Claim C1, witness for the amended theorem at a concrete run: in
`fsDepth` with the `.md$` matcher and the constant hook, both collected
paths are hook outputs of matching files. -/
theorem c1_hook_applied_iff_pattern_witness :
    collect_files fsDepth idSched 3 (RPath.valid "/r") (some 1) (some hookX)
        (some mdRegex) none =
      some (.ok [RPath.valid "/r/HOOKED", RPath.valid "/r/HOOKED"]) ∧
    (∀ q ∈ [RPath.valid "/r/HOOKED", RPath.valid "/r/HOOKED"],
      ∃ p s, p.toStr = some s ∧ mdRegex.is_match s = true ∧ q = hookX p) :=
  ⟨rfl,
    (c1_hook_applied_iff_pattern fsDepth idSched 3 (RPath.valid "/r") (some 1)
        (some hookX) none).2 mdRegex hookX
      [RPath.valid "/r/HOOKED", RPath.valid "/r/HOOKED"] rfl⟩

/-- Claim C2, counterexample: in the §8 depth-1 scenario the code does
collect `/r/sub/y.md`, which is not in the claimed result set
\x7b`/r/x.md`\x7d. -/
theorem c2_counterexample :
    collect_files fsDepth idSched 3 (RPath.valid "/r") (some 1) none
        (some mdRegex) none =
      some (.ok [RPath.valid "/r/x.md", RPath.valid "/r/sub/y.md"]) ∧
    RPath.valid "/r/sub/y.md" ∉ [RPath.valid "/r/x.md"] :=
  ⟨rfl, by decide⟩

/-- Claim C2, amended: with pattern `.md$`, depth budget 1 and no hook, the
result is exactly \x7b`/r/x.md`, `/r/sub/y.md`\x7d: the budget 1 permits
descending one level into `sub` (where the budget becomes 0 but files are
still collected); only directories below that level are pruned. -/
theorem c2_depth_one_descends :
    collect_files fsDepth idSched 3 (RPath.valid "/r") (some 1) none
        (some mdRegex) none =
      some (.ok [RPath.valid "/r/x.md", RPath.valid "/r/sub/y.md"]) := rfl

/-- Claim C3: with depth budget 0 every collected path survives the empty
filter and originates, via the file branch, from a resolved entry of the
root listing itself that the filesystem does not consider a directory; no
recursion into any subdirectory happens. -/
theorem c3_depth_zero_only_root_files (fs : FS) (sched : Sched) (fuel : Nat)
    (root : RPath) (h : Option (RPath → RPath)) (rx : Option Regex)
    (u : Option (IOError → RPath)) (r : List RPath)
    (hrun : collect_files fs sched (fuel + 1) root (some 0) h rx u =
      some (.ok r)) :
    ∃ es, readDirStep fs u root = .ok es ∧
      ∀ q ∈ r, q.osEmpty = false ∧
        ∃ e ∈ sched root es, ∃ p, resolveEntryPath u e = .ok p ∧
          fs.is_dir p = false ∧ ∃ l, fileEmit h rx p = .ok l ∧ q ∈ l := by
  rw [collect_files_succ] at hrun
  match hread : readDirStep fs u root with
  | .error a => rw [hread] at hrun; simp at hrun
  | .ok paths =>
    rw [hread] at hrun
    simp only [] at hrun
    refine ⟨paths, rfl, ?_⟩
    obtain ⟨L, hseq, hfilt⟩ := finishDir_ok _ _ hrun
    obtain ⟨hall, hcat⟩ := seqEntries_ok _ _ hseq
    subst hfilt
    subst hcat
    intro q hq
    rw [List.mem_filter] at hq
    obtain ⟨hqL, hqne⟩ := hq
    have hqos : q.osEmpty = false := by simpa using hqne
    refine ⟨hqos, ?_⟩
    rw [List.mem_flatMap] at hqL
    obtain ⟨res, hres, hqres⟩ := hqL
    rw [List.mem_map] at hres
    obtain ⟨e, he, hfe⟩ := hres
    subst hfe
    refine ⟨e, he, ?_⟩
    simp only [collectEntryWith] at hqres
    match hresolve : resolveEntryPath u e with
    | .error a => rw [hresolve] at hqres; simp [extractOk] at hqres
    | .ok path =>
      rw [hresolve] at hqres
      simp only [] at hqres
      refine ⟨path, rfl, ?_⟩
      cases hdir : fs.is_dir path with
      | true =>
        rw [hdir] at hqres
        simp only [if_true] at hqres
        simp only [Nat.lt_irrefl, if_false, extractOk, List.mem_singleton]
          at hqres
        rw [hqres] at hqos
        simp [RPath.defaultPath, RPath.osEmpty] at hqos
      | false =>
        rw [hdir] at hqres
        simp only [Bool.false_eq_true, if_false] at hqres
        refine ⟨rfl, ?_⟩
        match hemit : fileEmit h rx path with
        | .error a => rw [hemit] at hqres; simp [extractOk] at hqres
        | .ok l =>
          rw [hemit] at hqres
          simp only [extractOk] at hqres
          exact ⟨l, rfl, hqres⟩

/-- Claim C3, witness: the depth-0 run over `fsDepth` returns exactly the
root's matching file, and the theorem's conclusion holds of it. -/
theorem c3_depth_zero_only_root_files_witness :
    collect_files fsDepth idSched 1 (RPath.valid "/r") (some 0) none
        (some mdRegex) none = some (.ok [RPath.valid "/r/x.md"]) ∧
    (∃ es, readDirStep fsDepth none (RPath.valid "/r") = .ok es ∧
      ∀ q ∈ [RPath.valid "/r/x.md"], q.osEmpty = false ∧
        ∃ e ∈ idSched (RPath.valid "/r") es, ∃ p,
          resolveEntryPath none e = .ok p ∧
          fsDepth.is_dir p = false ∧
          ∃ l, fileEmit none (some mdRegex) p = .ok l ∧ q ∈ l) :=
  ⟨rfl,
    c3_depth_zero_only_root_files fsDepth idSched 0 (RPath.valid "/r") none
      (some mdRegex) none [RPath.valid "/r/x.md"] rfl⟩

/-- Claim C4: directory-read recovery is single-shot.  Without a recovery
function a failed read aborts the traversal with that error; with one, the
recovery function is applied to the error and the substitute path's entries
are read and processed; a second failure aborts the traversal regardless of
anything else. -/
theorem c4_recovery_single_shot (fs : FS) (sched : Sched) (fuel : Nat)
    (root : RPath) (d : Option Nat) (h : Option (RPath → RPath))
    (rx : Option Regex) (fn : IOError → RPath) (e e2 : IOError)
    (es : List (Except IOError RPath)) :
    (fs.read_dir root = .error e →
      collect_files fs sched (fuel + 1) root d h rx none =
        some (.error (.readDirErr e))) ∧
    (fs.read_dir root = .error e → fs.read_dir (fn e) = .ok es →
      readDirStep fs (some fn) root = .ok es ∧
      collect_files fs sched (fuel + 1) root d h rx (some fn) =
        finishDir (seqEntries ((sched root es).map
          (collectEntryWith fs (collect_files fs sched fuel) d h rx
            (some fn))))) ∧
    (fs.read_dir root = .error e → fs.read_dir (fn e) = .error e2 →
      collect_files fs sched (fuel + 1) root d h rx (some fn) =
        some (.error (.readDirErr e2))) := by
  refine ⟨?_, ?_, ?_⟩
  · intro h1
    rw [collect_files_succ]
    simp [readDirStep, h1]
  · intro h1 h2
    have hstep : readDirStep fs (some fn) root = .ok es := by
      simp [readDirStep, h1, h2]
    refine ⟨hstep, ?_⟩
    rw [collect_files_succ]
    simp [hstep]
  · intro h1 h2
    rw [collect_files_succ]
    simp [readDirStep, h1, h2]

/-- A filesystem with a missing root `/gone`, an alternate root `/alt`
holding one file, and a second missing directory `/gone2`. -/
def fsRec : FS where
  read_dir p :=
    if p = .valid "/gone" then .error { code := 1 }
    else if p = .valid "/alt" then .ok [.ok (.valid "/alt/a.txt")]
    else if p = .valid "/gone2" then .error { code := 3 }
    else .error { code := 9 }
  is_dir p := p = .valid "/gone" || p = .valid "/alt" || p = .valid "/gone2"

/-- Recovery substituting the alternate root. -/
def recToAlt : IOError → RPath := fun _ => .valid "/alt"

/-- Recovery substituting a second missing directory. -/
def recToGone2 : IOError → RPath := fun _ => .valid "/gone2"

/-- Claim C4, witness: over `fsRec`, a read failure on `/gone` aborts
without recovery, is recovered through `/alt` (whose listing is then
processed) with recovery configured, and still aborts when the substitute
`/gone2` also fails. -/
theorem c4_recovery_single_shot_witness :
    (collect_files fsRec idSched 2 (RPath.valid "/gone") none none none
        none = some (.error (.readDirErr { code := 1 }))) ∧
    (readDirStep fsRec (some recToAlt) (RPath.valid "/gone") =
        .ok [.ok (.valid "/alt/a.txt")] ∧
      collect_files fsRec idSched 2 (RPath.valid "/gone") none none none
          (some recToAlt) =
        finishDir (seqEntries ((idSched (RPath.valid "/gone")
            [.ok (.valid "/alt/a.txt")]).map
          (collectEntryWith fsRec (collect_files fsRec idSched 1) none none
            none (some recToAlt))))) ∧
    (collect_files fsRec idSched 2 (RPath.valid "/gone") none none none
        (some recToGone2) = some (.error (.readDirErr { code := 3 }))) :=
  ⟨(c4_recovery_single_shot fsRec idSched 1 (RPath.valid "/gone") none none
      none recToAlt { code := 1 } { code := 3 }
      [.ok (.valid "/alt/a.txt")]).1 rfl,
    (c4_recovery_single_shot fsRec idSched 1 (RPath.valid "/gone") none none
      none recToAlt { code := 1 } { code := 3 }
      [.ok (.valid "/alt/a.txt")]).2.1 rfl rfl,
    (c4_recovery_single_shot fsRec idSched 1 (RPath.valid "/gone") none none
      none recToGone2 { code := 1 } { code := 3 }
      [.ok (.valid "/alt/a.txt")]).2.2 rfl rfl⟩

/-- Claim C5: `with_target_regex` settles pattern validity at configuration
time: an invalid pattern (one the engine fails to compile) aborts the
builder call itself, and a valid one returns the configuration holding the
compiled matcher, before any traversal runs. -/
theorem c5_pattern_compiled_at_config_time (compile : String → Option Regex)
    (c : CollectFilesConfigured) (pat : String) :
    (compile pat = none →
      CollectFilesConfigured.with_target_regex compile c pat = none) ∧
    (∀ rgx, compile pat = some rgx →
      CollectFilesConfigured.with_target_regex compile c pat =
        some { c with target_regex := some rgx }) := by
  constructor
  · intro hc
    simp [CollectFilesConfigured.with_target_regex, hc]
  · intro rgx hc
    simp [CollectFilesConfigured.with_target_regex, hc]

/-- A concrete compile function failing exactly on the pattern `(`. -/
def compileFix : String → Option Regex :=
  fun s => if s = "(" then none else some { src := s, is_match := fun _ => false }

/-- Claim C5, witness: the fixture engine rejects `(` and accepts `.md$`,
and `with_target_regex` behaves accordingly on a fresh configuration. -/
theorem c5_pattern_compiled_at_config_time_witness :
    compileFix "(" = none ∧
    CollectFilesConfigured.with_target_regex compileFix
        (CollectFilesConfigured.new (RPath.valid "/r")) "(" = none ∧
    compileFix ".md$" = some { src := ".md$", is_match := fun _ => false } ∧
    CollectFilesConfigured.with_target_regex compileFix
        (CollectFilesConfigured.new (RPath.valid "/r")) ".md$" =
      some { CollectFilesConfigured.new (RPath.valid "/r") with
        target_regex := some { src := ".md$", is_match := fun _ => false } } :=
  ⟨rfl,
    (c5_pattern_compiled_at_config_time compileFix
      (CollectFilesConfigured.new (RPath.valid "/r")) "(").1 rfl,
    rfl,
    (c5_pattern_compiled_at_config_time compileFix
      (CollectFilesConfigured.new (RPath.valid "/r")) ".md$").2
      { src := ".md$", is_match := fun _ => false } rfl⟩

/-- Claim C6: every collected path was emitted by the file branch applied to
a path the filesystem does not consider a directory, and the traversal
result depends on the matcher only through its values on non-directory path
strings (the pattern is never tested against a directory path; directories
are pruned only by depth). -/
theorem c6_files_only_pattern_never_on_dirs (fs : FS) (sched : Sched)
    (fuel : Nat) (root : RPath) (d : Option Nat) (h : Option (RPath → RPath))
    (u : Option (IOError → RPath)) :
    (∀ rx r, collect_files fs sched fuel root d h rx u = some (.ok r) →
      ∀ q ∈ r, ∃ p l, fs.is_dir p = false ∧ fileEmit h rx p = .ok l ∧
        q ∈ l) ∧
    (∀ rx rx', (∀ s, fs.is_dir (RPath.valid s) = false →
        rx.is_match s = rx'.is_match s) →
      collect_files fs sched fuel root d h (some rx) u =
        collect_files fs sched fuel root d h (some rx') u) := by
  constructor
  · intro rx r hrun q hq
    exact (mem_collect_provenance fs sched fuel root d h rx u r hrun q hq).2
  · intro rx rx' hagree
    exact collect_regex_agree fs sched rx rx' hagree fuel root d h u

/-- Claim C6, witness: in the depth-1 fixture every collected path is a
file-branch emission, and a matcher perturbed only on the directory string
`/r/sub` leaves the traversal result unchanged. -/
theorem c6_files_only_pattern_never_on_dirs_witness :
    (∀ q ∈ [RPath.valid "/r/x.md", RPath.valid "/r/sub/y.md"],
      ∃ p l, fsDepth.is_dir p = false ∧
        fileEmit none (some mdRegex) p = .ok l ∧ q ∈ l) ∧
    collect_files fsDepth idSched 3 (RPath.valid "/r") (some 1) none
        (some mdRegex) none =
      collect_files fsDepth idSched 3 (RPath.valid "/r") (some 1) none
        (some mdOrSubRegex) none ∧
    mdRegex.is_match "/r/sub" ≠ mdOrSubRegex.is_match "/r/sub" :=
  ⟨(c6_files_only_pattern_never_on_dirs fsDepth idSched 3 (RPath.valid "/r")
      (some 1) none none).1 (some mdRegex)
      [RPath.valid "/r/x.md", RPath.valid "/r/sub/y.md"] rfl,
    (c6_files_only_pattern_never_on_dirs fsDepth idSched 3 (RPath.valid "/r")
      (some 1) none none).2 mdRegex mdOrSubRegex (by
        intro s hs
        by_cases hsub : s = "/r/sub"
        · subst hsub
          simp [fsDepth] at hs
        · simp [mdRegex, mdOrSubRegex, hsub]),
    by decide⟩

/-- Claim C7: each builder operation populates exactly its own field and
preserves every other field (root_dir, set at construction, is preserved by
all of them); re-applying the same operation leaves the last written value;
a fresh configuration starts with only root_dir set. -/
theorem c7_builder_frame (c : CollectFilesConfigured) (hk hk' : RPath → RPath)
    (lvl lvl' : Nat) (f f' : IOError → RPath)
    (compile : String → Option Regex) (pat pat' : String) (rgx rgx' : Regex)
    (rt : RPath) :
    ((c.with_hook hk).root_dir = c.root_dir ∧
      (c.with_hook hk).depth = c.depth ∧
      (c.with_hook hk).target_regex = c.target_regex ∧
      (c.with_hook hk).unwrap_or_else = c.unwrap_or_else ∧
      (c.with_hook hk).hook_fn = some hk) ∧
    ((c.with_depth lvl).root_dir = c.root_dir ∧
      (c.with_depth lvl).hook_fn = c.hook_fn ∧
      (c.with_depth lvl).target_regex = c.target_regex ∧
      (c.with_depth lvl).unwrap_or_else = c.unwrap_or_else ∧
      (c.with_depth lvl).depth = some lvl) ∧
    ((c.with_unwrap_or_else f).root_dir = c.root_dir ∧
      (c.with_unwrap_or_else f).depth = c.depth ∧
      (c.with_unwrap_or_else f).hook_fn = c.hook_fn ∧
      (c.with_unwrap_or_else f).target_regex = c.target_regex ∧
      (c.with_unwrap_or_else f).unwrap_or_else = some f) ∧
    (compile pat = some rgx →
      CollectFilesConfigured.with_target_regex compile c pat =
        some { c with target_regex := some rgx }) ∧
    ((c.with_hook hk).with_hook hk' = c.with_hook hk') ∧
    ((c.with_depth lvl).with_depth lvl' = c.with_depth lvl') ∧
    ((c.with_unwrap_or_else f).with_unwrap_or_else f' =
      c.with_unwrap_or_else f') ∧
    (compile pat = some rgx → compile pat' = some rgx' →
      (CollectFilesConfigured.with_target_regex compile c pat).bind
          (fun c2 => CollectFilesConfigured.with_target_regex compile c2 pat')
        = some { c with target_regex := some rgx' }) ∧
    ((CollectFilesConfigured.new rt).root_dir = rt ∧
      (CollectFilesConfigured.new rt).depth = none ∧
      (CollectFilesConfigured.new rt).hook_fn = none ∧
      (CollectFilesConfigured.new rt).target_regex = none ∧
      (CollectFilesConfigured.new rt).unwrap_or_else = none) := by
  refine ⟨⟨rfl, rfl, rfl, rfl, rfl⟩, ⟨rfl, rfl, rfl, rfl, rfl⟩,
    ⟨rfl, rfl, rfl, rfl, rfl⟩, ?_, rfl, rfl, rfl, ?_,
    ⟨rfl, rfl, rfl, rfl, rfl⟩⟩
  · intro hc
    simp [CollectFilesConfigured.with_target_regex, hc]
  · intro hc hc'
    simp [CollectFilesConfigured.with_target_regex, hc, hc']

/-- Claim C7, witness: the frame and last-write-wins facts at a concrete
configuration, hook, depth, recovery function and two compilable
patterns. -/
theorem c7_builder_frame_witness :
    compileFix "a" = some { src := "a", is_match := fun _ => false } ∧
    compileFix "b" = some { src := "b", is_match := fun _ => false } ∧
    (((CollectFilesConfigured.new (RPath.valid "/r")).with_hook
        hookX).root_dir = RPath.valid "/r" ∧
      ((CollectFilesConfigured.new (RPath.valid "/r")).with_depth 3).depth =
        some 3 ∧
      ((CollectFilesConfigured.new (RPath.valid "/r")).with_depth
        3).with_depth 1 = (CollectFilesConfigured.new
          (RPath.valid "/r")).with_depth 1 ∧
      (CollectFilesConfigured.with_target_regex compileFix
          (CollectFilesConfigured.new (RPath.valid "/r")) "a").bind
        (fun c2 => CollectFilesConfigured.with_target_regex compileFix c2 "b")
        = some { CollectFilesConfigured.new (RPath.valid "/r") with
            target_regex := some { src := "b", is_match := fun _ => false } }) :=
  ⟨rfl, rfl,
    ((c7_builder_frame (CollectFilesConfigured.new (RPath.valid "/r")) hookX
        hookX 3 1 recToAlt recToAlt compileFix "a" "b"
        { src := "a", is_match := fun _ => false }
        { src := "b", is_match := fun _ => false }
        (RPath.valid "/r")).1.1),
    ((c7_builder_frame (CollectFilesConfigured.new (RPath.valid "/r")) hookX
        hookX 3 1 recToAlt recToAlt compileFix "a" "b"
        { src := "a", is_match := fun _ => false }
        { src := "b", is_match := fun _ => false }
        (RPath.valid "/r")).2.1.2.2.2.2),
    ((c7_builder_frame (CollectFilesConfigured.new (RPath.valid "/r")) hookX
        hookX 3 1 recToAlt recToAlt compileFix "a" "b"
        { src := "a", is_match := fun _ => false }
        { src := "b", is_match := fun _ => false }
        (RPath.valid "/r")).2.2.2.2.2.1),
    ((c7_builder_frame (CollectFilesConfigured.new (RPath.valid "/r")) hookX
        hookX 3 1 recToAlt recToAlt compileFix "a" "b"
        { src := "a", is_match := fun _ => false }
        { src := "b", is_match := fun _ => false }
        (RPath.valid "/r")).2.2.2.2.2.2.2.1 rfl rfl)⟩

/-- Claim C8: over the same unchanged filesystem, two successful runs with
identical configuration under any two permuting schedules (the model of the
unordered parallel fan-out) yield permuted lists, hence the same set of
paths. -/
theorem c8_same_tree_same_set (fs : FS) (sched sched' : Sched)
    (hperm1 : ∀ p l, List.Perm (sched p l) l)
    (hperm2 : ∀ p l, List.Perm (sched' p l) l)
    (fuel : Nat) (root : RPath) (d : Option Nat) (h : Option (RPath → RPath))
    (rx : Option Regex) (u : Option (IOError → RPath)) (r r' : List RPath)
    (h1 : collect_files fs sched fuel root d h rx u = some (.ok r))
    (h2 : collect_files fs sched' fuel root d h rx u = some (.ok r')) :
    List.Perm r r' ∧ ∀ q, q ∈ r ↔ q ∈ r' := by
  have hp := collect_perm fs sched sched' hperm1 hperm2 fuel root d h rx u
    r r' h1 h2
  exact ⟨hp, fun q => hp.mem_iff⟩

/-- Claim C8, witness: the identity and reversing schedules produce the two
orders of the same two-path set on the depth-1 fixture. -/
theorem c8_same_tree_same_set_witness :
    collect_files fsDepth idSched 3 (RPath.valid "/r") (some 1) none
        (some mdRegex) none =
      some (.ok [RPath.valid "/r/x.md", RPath.valid "/r/sub/y.md"]) ∧
    collect_files fsDepth revSched 3 (RPath.valid "/r") (some 1) none
        (some mdRegex) none =
      some (.ok [RPath.valid "/r/sub/y.md", RPath.valid "/r/x.md"]) ∧
    (List.Perm [RPath.valid "/r/x.md", RPath.valid "/r/sub/y.md"]
        [RPath.valid "/r/sub/y.md", RPath.valid "/r/x.md"] ∧
      ∀ q, q ∈ [RPath.valid "/r/x.md", RPath.valid "/r/sub/y.md"] ↔
        q ∈ [RPath.valid "/r/sub/y.md", RPath.valid "/r/x.md"]) :=
  ⟨rfl, rfl,
    c8_same_tree_same_set fsDepth idSched revSched
      (fun _ l => List.Perm.refl l) (fun _ l => List.reverse_perm l) 3
      (RPath.valid "/r") (some 1) none (some mdRegex) none
      [RPath.valid "/r/x.md", RPath.valid "/r/sub/y.md"]
      [RPath.valid "/r/sub/y.md", RPath.valid "/r/x.md"] rfl rfl⟩

/-- Claim C9: a matching file whose hooked path is the empty path is
silently dropped: its emission is exactly the exclusion sentinel
`PathBuf::default()`, and no successful traversal result ever contains the
empty path (the post-flatten filter removes hook-produced empties and
sentinels alike). -/
theorem c9_hook_empty_dropped (fs : FS) (sched : Sched) (fuel : Nat)
    (root : RPath) (d : Option Nat) (u : Option (IOError → RPath))
    (hk : RPath → RPath) (rgx : Regex) (p : RPath) (s : String)
    (r : List RPath) :
    (collect_files fs sched fuel root d (some hk) (some rgx) u =
        some (.ok r) →
      RPath.defaultPath ∉ r) ∧
    (hk p = RPath.defaultPath → p.toStr = some s → rgx.is_match s = true →
      fileEmit (some hk) (some rgx) p = .ok [RPath.defaultPath]) := by
  constructor
  · intro hrun hmem
    have hos := (mem_collect_provenance fs sched fuel root d (some hk)
      (some rgx) u r hrun _ hmem).1
    simp [RPath.defaultPath, RPath.osEmpty] at hos
  · intro hhk htos hmatch
    simp [fileEmit, htos, hmatch, hhk]

/-- A hook mapping every path to the empty path. -/
def hookToEmpty : RPath → RPath := fun _ => RPath.defaultPath

/-- Claim C9, witness: over the one-file tree whose file matches a
match-everything pattern, the empty-producing hook makes the run return the
empty collection, the file's emission is the bare sentinel, and the empty
path is absent from the (empty) result. -/
theorem c9_hook_empty_dropped_witness :
    collect_files fsHook idSched 2 (RPath.valid "/r") none (some hookToEmpty)
        (some { src := ".*", is_match := fun _ => true }) none =
      some (.ok []) ∧
    fileEmit (some hookToEmpty)
        (some { src := ".*", is_match := fun _ => true })
        (RPath.valid "/r/a") = .ok [RPath.defaultPath] ∧
    RPath.defaultPath ∉ ([] : List RPath) :=
  ⟨rfl,
    (c9_hook_empty_dropped fsHook idSched 2 (RPath.valid "/r") none none
      hookToEmpty { src := ".*", is_match := fun _ => true }
      (RPath.valid "/r/a") "/r/a" []).2 rfl rfl rfl,
    (c9_hook_empty_dropped fsHook idSched 2 (RPath.valid "/r") none none
      hookToEmpty { src := ".*", is_match := fun _ => true }
      (RPath.valid "/r/a") "/r/a" []).1 rfl⟩

/-- Claim C10: the not-valid-unicode abort requires a configured pattern:
with no pattern, no run ever aborts with it, and a non-unicode file path
listed under the root is emitted unchanged in any successful result. -/
theorem c10_no_unicode_abort_without_pattern (fs : FS) (sched : Sched)
    (fuel : Nat) (root : RPath) (d : Option Nat)
    (hk : Option (RPath → RPath)) (u : Option (IOError → RPath))
    (pth : RPath) (t : Nat) (es : List (Except IOError RPath))
    (r : List RPath) :
    (collect_files fs sched fuel root d hk none u ≠
      some (.error (.notUnicode pth))) ∧
    (readDirStep fs u root = .ok es →
      Except.ok (RPath.invalid t) ∈ sched root es →
      fs.is_dir (RPath.invalid t) = false →
      collect_files fs sched (fuel + 1) root d hk none u = some (.ok r) →
      RPath.invalid t ∈ r) := by
  constructor
  · exact collect_no_notUnicode_of_no_regex fs sched fuel root d hk u pth
  · intro hread hmem hdir hrun
    rw [collect_files_succ, hread] at hrun
    simp only [] at hrun
    obtain ⟨L, hseq, hfilt⟩ := finishDir_ok _ _ hrun
    obtain ⟨hall, hcat⟩ := seqEntries_ok _ _ hseq
    subst hfilt
    subst hcat
    rw [List.mem_filter]
    constructor
    · rw [List.mem_flatMap]
      refine ⟨collectEntryWith fs (collect_files fs sched fuel) d hk none u
        (.ok (RPath.invalid t)), List.mem_map_of_mem _ hmem, ?_⟩
      simp [collectEntryWith, resolveEntryPath_ok_entry, hdir, fileEmit,
        extractOk]
    · simp [RPath.osEmpty]

/-- A tree whose root `/r` holds a single non-unicode file path. -/
def fsInv : FS where
  read_dir p :=
    if p = .valid "/r" then .ok [.ok (.invalid 7)] else .error { code := 2 }
  is_dir p := p = .valid "/r"

/-- Claim C10, witness: the non-unicode file of `fsInv` is collected
unchanged when no pattern is configured, and the run does not abort. -/
theorem c10_no_unicode_abort_without_pattern_witness :
    collect_files fsInv idSched 1 (RPath.valid "/r") none none none none =
      some (.ok [RPath.invalid 7]) ∧
    RPath.invalid 7 ∈ [RPath.invalid 7] ∧
    (collect_files fsInv idSched 1 (RPath.valid "/r") none none none none ≠
      some (.error (.notUnicode (RPath.invalid 7)))) :=
  ⟨rfl,
    (c10_no_unicode_abort_without_pattern fsInv idSched 0 (RPath.valid "/r")
      none none none (RPath.invalid 7) 7 [.ok (.invalid 7)]
      [RPath.invalid 7]).2 rfl (by decide) (by decide) rfl,
    (c10_no_unicode_abort_without_pattern fsInv idSched 1 (RPath.valid "/r")
      none none none (RPath.invalid 7) 7 [.ok (.invalid 7)]
      [RPath.invalid 7]).1⟩
